import Mathlib

/-!
Verification of the star-registry hash-linked ledger
(`src/blockchain.js`) against its natural-language specification.

The JavaScript source is shallowly embedded: each Promise-returning
method becomes a pure Lean function returning `Except JsError _`
(`.error` is a rejected promise, `.ok` a resolved one), and the
first-settle-wins semantics of `resolve`/`reject` inside a Promise
executor is made explicit by threading a pending settlement and only
keeping the first one.  The SHA-256 collaborator is abstracted as a
parameter `digest : Block H → H` over an arbitrary hash type `H` with
decidable equality (the real code uses hex strings compared with
`===`).  The digest input in `_addBlock` is `JSON.stringify(block)`
taken while the block's `hash` field is still `null`, so the digest is
applied to the block value with `hash := none`.
-/

namespace StarLedger

/-- The decoded body of a block.  The genesis block carries the fixed
marker payload; a submitted block carries `{address, message,
signature, star}` (the star object itself is opaque and modelled as a
string). -/
inductive BlockBody where
  | genesis (data : String)
  | starClaim (address message signature star : String)
deriving DecidableEq, Repr

/-- A ledger record, parametrised by the hash digest type `H`.
`height` mirrors the JavaScript number field (the chain manager's
height starts at `-1`, so `Int`), `time` is seconds since epoch,
`previousBlockHash` and `hash` are `null` (`none`) until assigned. -/
structure Block (H : Type) where
  height : Int
  time : Nat
  previousBlockHash : Option H
  hash : Option H
  body : BlockBody
deriving DecidableEq, Repr

/-- Modelled from the spec: the `Block` constructor lives in the
missing `block.js`; per spec §3 a fresh record has its
`predecessorHash` absent and its `hash` not yet computed (both are
assigned at append time), and `height`/`time` are populated by the
append path. -/
def newBlock {H : Type} (body : BlockBody) : Block H :=
  { height := 0, time := 0, previousBlockHash := none, hash := none, body := body }

/-- The chain manager's state: `this.chain` and `this.height`. -/
structure Blockchain (H : Type) where
  chain : List (Block H)
  height : Int
deriving DecidableEq, Repr

/-- An entry of `validateChain`'s `errorLog`.  Only the linkage error
can ever be pushed: the hash-mismatch branch crashes on the unbound
identifier `height` before its push executes (see `validateScan`). -/
inductive ChainErr where
  | linkageBroken (height : Int)
deriving DecidableEq, Repr

/-- The values a rejected promise can carry in this codebase. -/
inductive JsError where
  | expiredRequest
  | invalidSignature
  | notFound
  | referenceError
  | typeError
  | integrityErrors (errs : List ChainErr)
deriving DecidableEq, Repr

deriving instance DecidableEq for Except

variable {H : Type} [DecidableEq H]

/-- JavaScript array indexing `l[i]` with an `Int` index: `undefined`
(`none`) when out of range. -/
def jsGet {α : Type} (l : List α) (i : Int) : Option α :=
  if h : 0 ≤ i ∧ i.toNat < l.length then some (l.get ⟨i.toNat, h.2⟩) else none

/-- Modelled from the spec: `Block.validate()` lives in the missing
`block.js`; per spec §4.3(a) it recomputes the digest over the
record's content with the stored hash excluded (the hash field nulled,
exactly as at append time) and compares it to the stored hash. -/
def blockValidate (digest : Block H → H) (b : Block H) : Bool :=
  decide (b.hash = some (digest { b with hash := none }))

/-- The body of `validateChain`'s `forEach`, scanning `rest` (a suffix
of `chain`) and accumulating `errorLog`.  When a block fails
`validate()`, the push of the hash-mismatch message evaluates the
template literal `Block ${height}`, and `height` is unbound there, so
a `ReferenceError` is thrown, caught and turned into a rejection.  For
a non-genesis block, linkage is checked by re-searching the whole
chain for the first block whose `hash` equals this block's
`previousBlockHash` and comparing that block's height to
`this.height - 1` (the optional-chaining miss compares `undefined` to
a number, i.e. is false). -/
def validateScan (digest : Block H → H) (chain : List (Block H)) :
    List (Block H) → List ChainErr → Except JsError (List ChainErr)
  | [], log => .ok log
  | b :: rest, log =>
    if ¬ blockValidate digest b then
      .error .referenceError
    else if b.height = 0 then
      validateScan digest chain rest log
    else
      let isNextBlock :=
        match chain.find? (fun p => decide (p.hash = b.previousBlockHash)) with
        | some p => decide (p.height = b.height - 1)
        | none => false
      if isNextBlock then
        validateScan digest chain rest log
      else
        validateScan digest chain rest (log ++ [.linkageBroken b.height])

/-- `validateChain()`: resolves with the accumulated error log, or
rejects when the scan throws. -/
def validateChain (digest : Block H → H) (s : Blockchain H) : Except JsError (List ChainErr) :=
  validateScan digest s.chain s.chain []

/-- `_addBlock(block)`: reads `chain`/`height`, takes
`previousBlockHash` from `chain[height]` when the chain is non-empty
(a miss there throws a `TypeError` reading `.hash` of `undefined`),
assigns `height` and `time`, computes the hash over the block as it
stands (its `hash` field still holding its prior value), pushes the
block and bumps the height, then runs `validateChain` and rejects with
the error list when it is non-empty — the later `resolve(block)` is a
no-op on an already-rejected promise.  Returns the post-call state and
the promise settlement.  `populate` is the field-assignment portion:
height and time are set first, then the hash is computed over the
block as it then stands. -/
def populate (digest : Block H → H) (now : Nat) (newBlockHeight : Int) (b0 : Block H) : Block H :=
  let b1 : Block H := { b0 with height := newBlockHeight, time := now }
  { b1 with hash := some (digest b1) }

/-- See `populate`: the rest of `_addBlock(block)`. -/
def _addBlock (digest : Block H → H) (now : Nat) (s : Blockchain H) (block : Block H) :
    Blockchain H × Except JsError (Block H) :=
  let withPrev : Except JsError (Block H) :=
    if s.chain.length > 0 then
      match jsGet s.chain s.height with
      | some lastBlock => .ok { block with previousBlockHash := lastBlock.hash }
      | none => .error .typeError
    else .ok block
  match withPrev with
  | .error e => (s, .error e)
  | .ok b0 =>
    let b2 : Block H := populate digest now (s.height + 1) b0
    let s2 : Blockchain H := { chain := s.chain ++ [b2], height := s.height + 1 }
    (s2,
      match validateChain digest s2 with
      | .error e => .error e
      | .ok errs =>
        if errs.length > 0 then .error (.integrityErrors errs)
        else .ok b2)

/-- `initializeChain()`: appends the genesis block when the height is
still `-1`; any rejection from `_addBlock` is logged and swallowed. -/
def initializeChain (digest : Block H → H) (now : Nat) (s : Blockchain H) : Blockchain H :=
  if s.height = -1 then (_addBlock digest now s (newBlock (.genesis "Genesis Block"))).1
  else s

/-- The `Blockchain` constructor: empty chain, height `-1`, then
`initializeChain()`. -/
def Blockchain.mkNew (digest : Block H → H) (now : Nat) : Blockchain H :=
  initializeChain digest now { chain := [], height := -1 }

/-- `getChainHeight()`. -/
def getChainHeight (s : Blockchain H) : Int :=
  s.height

/-- `requestMessageOwnershipVerification(address)` at current time
`now` (seconds). -/
def requestMessageOwnershipVerification (address : String) (now : Nat) : String :=
  address ++ ":" ++ toString now ++ ":starRegistry"

/-- Character-level splitting, the semantics of JavaScript
`String.prototype.split` with a one-character separator (written
structurally so it evaluates inside the kernel). -/
def splitOnChar (sep : Char) : List Char → List (List Char)
  | [] => [[]]
  | c :: cs =>
    let rest := splitOnChar sep cs
    if c = sep then [] :: rest
    else
      match rest with
      | r :: rs => (c :: r) :: rs
      | [] => [[c]]

/-- `message.split(":")`. -/
def jsSplitColon (s : String) : List String :=
  (splitOnChar ':' s.data).map (fun cs => { data := cs })

/-- `parseInt` skips leading whitespace before reading digits. -/
def dropLeadingWs : List Char → List Char
  | [] => []
  | c :: cs =>
    if c = ' ' ∨ c = '\t' ∨ c = '\n' ∨ c = '\r' then dropLeadingWs cs else c :: cs

/-- Leading decimal-digit run of `parseInt`: consume digits, stop at
the first non-digit; `none` when no digit was consumed. -/
def parseDigits : List Char → Option Nat → Option Nat
  | [], acc => acc
  | c :: cs, acc =>
    if c.isDigit then parseDigits cs (some (acc.getD 0 * 10 + (c.toNat - 48)))
    else acc

/-- JavaScript `parseInt(x)` for `x` a string or `undefined` (`none`):
skips leading whitespace, honours an optional sign, reads the leading
decimal-digit run, and yields NaN (`none`) when there is no digit or
no argument.  (Exotic forms such as hex prefixes do not occur in this
codebase and are out of the modelled scope.) -/
def jsParseInt (s? : Option String) : Option Int :=
  match s? with
  | none => none
  | some s =>
    match dropLeadingWs s.data with
    | '-' :: cs => (parseDigits cs none).map (fun n => -(n : Int))
    | '+' :: cs => (parseDigits cs none).map (fun n => (n : Int))
    | cs => (parseDigits cs none).map (fun n => (n : Int))

/-- `submitStar(address, message, signature, star)`.  The signature
verifier is the external collaborator `verify message address
signature`.  Neither failed check is followed by a `return`, so after
an early `reject` the method still constructs the block and calls
`_addBlock`; the promise keeps its first settlement (`pending.getD`),
but the state change of `_addBlock` persists.  The stale comparison
`currentTime - time > 300` is false when the parsed time is NaN. -/
def submitStar (digest : Block H → H) (verify : String → String → String → Bool)
    (now : Nat) (address message signature star : String) (s : Blockchain H) :
    Blockchain H × Except JsError (Block H) :=
  let time? := jsParseInt (jsSplitColon message)[1]?
  let expired :=
    match time? with
    | some t => decide ((now : Int) - t > 300)
    | none => false
  let pending : Option (Except JsError (Block H)) :=
    if expired then some (.error .expiredRequest) else none
  let validMessage := verify message address signature
  let pending := if ¬ validMessage then pending <|> some (.error .invalidSignature) else pending
  let block : Block H := newBlock (.starClaim address message signature star)
  let sr := _addBlock digest now s block
  (sr.1, pending.getD sr.2)

/-- `getBlockByHash(hash)`: `Array.prototype.find` takes the first
match; the stray `reject` after a successful `resolve` is a no-op. -/
def getBlockByHash (s : Blockchain H) (hash : H) : Except JsError (Block H) :=
  match s.chain.find? (fun b => decide (b.hash = some hash)) with
  | some b => .ok b
  | none => .error .notFound

/-- `getBlockByHeight(height)`: resolves with the first block of that
height, or with `null` (`none`). -/
def getBlockByHeight (s : Blockchain H) (height : Int) : Option (Block H) :=
  s.chain.find? (fun p => decide (p.height = height))

/-- Modelled from the spec: `Block.getBData()` lives in the missing
`block.js`; per spec §4.4/§6 it decodes the opaque payload, and the
genesis payload has no `address` field, so its decoded body matches no
queried address. -/
def getBData (b : Block H) : Option (String × String × String × String) :=
  match b.body with
  | .genesis _ => none
  | .starClaim a m sg st => some (a, m, sg, st)

/-- `getStarsByWalletAddress(address)`: the sequential denotation of
the decode-and-push loop — for each block whose decoded body has an
`address` field equal to the query, push `{owner, star}`.  (The
source's unawaited async `forEach` callbacks are a scheduling race the
spec flags as a bug, not modelled; this is the value every push
lands in.) -/
def getStarsByWalletAddress (s : Blockchain H) (address : String) : List (String × String) :=
  s.chain.foldl
    (fun stars b =>
      match getBData b with
      | some (a, _, _, st) => if a = address then stars ++ [(address, st)] else stars
      | none => stars)
    []

/-- The query result described by the specification's words: exactly
the `{owner, star}` pairs of submitted records whose decoded address
equals the query, in chain order, records without an address field
excluded.  Stated separately from `getStarsByWalletAddress` so the two
can be compared. -/
def starsByAddressSpec (s : Blockchain H) (address : String) : List (String × String) :=
  s.chain.filterMap
    (fun b =>
      match b.body with
      | .starClaim a _ _ st => if a = address then some (address, st) else none
      | .genesis _ => none)

/-- The address field of a decoded payload, when the payload has
one (the genesis payload does not). -/
def bodyAddress : BlockBody → Option String
  | .genesis _ => none
  | .starClaim a _ _ _ => some a

/-- A concrete digest on `H := Int` for worked examples: sensitive to
the height and to the payload (so payload tampering changes the
recomputed digest, as with a real hash). -/
def demoDigest (b : Block Int) : Int :=
  b.height * 1000 +
    (match b.body with
     | .genesis _ => 0
     | .starClaim _ _ _ st => (st.length : Int) + 1)

/-- A height-only digest on `H := Int`: two records share a digest
only when they share a height, so the collision-resistance hypothesis
used below holds for it by construction. -/
def heightDigest (b : Block Int) : Int :=
  b.height

/-- A two-record ledger built through the append path with
`heightDigest`: the constructor's genesis append followed by one
submitted record. -/
def demoChain2 : Blockchain Int :=
  (_addBlock heightDigest 200 (Blockchain.mkNew heightDigest 100)
    (newBlock (.starClaim "addr1" "m" "sig" "star1"))).1

/-- The genesis record of `demoChain2`, written out. -/
def demoG : Block Int :=
  { height := 0, time := 100, previousBlockHash := none, hash := some 0,
    body := .genesis "Genesis Block" }

/-- The submitted record of `demoChain2`, written out. -/
def demoB1 : Block Int :=
  { height := 1, time := 200, previousBlockHash := some 0, hash := some 1,
    body := .starClaim "addr1" "m" "sig" "star1" }

/-- The same two-record append-path ledger built with `demoDigest`. -/
def demoDigestChain2 : Blockchain Int :=
  (_addBlock demoDigest 200 (Blockchain.mkNew demoDigest 100)
    (newBlock (.starClaim "addr1" "m" "sig" "star1"))).1

/-- `demoDigestChain2` with the submitted record's payload modified
after commit, its stored hash left as committed. -/
def tamperedChain : Blockchain Int :=
  { demoDigestChain2 with
    chain := demoDigestChain2.chain.map
      (fun b => if b.height = 1 then { b with body := .starClaim "addr1" "m" "sig" "tampered" } else b) }

/-- A two-record state whose records both carry correct content hashes
but whose second record's `previousBlockHash` matches no record: a
broken-linkage state used to exercise the post-append validation
branch of `_addBlock`. -/
def g0 : Block Int :=
  { height := 0, time := 100, previousBlockHash := none, hash := some 0,
    body := .genesis "Genesis Block" }

/-- See `g0`: the hash-valid record with a dangling predecessor
reference. -/
def b1bad : Block Int :=
  { height := 1, time := 200, previousBlockHash := some 999, hash := some 1006,
    body := .starClaim "addr1" "m" "sig" "star1" }

/-- See `g0` and `b1bad`. -/
def brokenState : Blockchain Int :=
  { chain := [g0, b1bad], height := 1 }

/-- The ledgers reachable through the defined append path: the
constructor seeds the genesis block, and every later record is a fresh
`Block` handed to `_addBlock` (this is exactly what `initializeChain`
and `submitStar` do). -/
inductive Reachable (digest : Block H → H) : Blockchain H → Prop where
  | genesis (now : Nat) : Reachable digest (Blockchain.mkNew digest now)
  | step (now : Nat) (body : BlockBody) {s : Blockchain H} :
      Reachable digest s → Reachable digest ((_addBlock digest now s (newBlock body)).1)

/-- Structural invariant of append-reachable ledgers: heights are the
positions, the stored height is the last index, linkage references the
predecessor's hash, the first block has no predecessor hash, and every
stored hash is the digest of the block's own content with the hash
field nulled. -/
structure ChainInv (digest : Block H → H) (s : Blockchain H) : Prop where
  ne : s.chain ≠ []
  hlen : s.height = (s.chain.length : Int) - 1
  hheight : ∀ (i : Nat) (b : Block H), s.chain[i]? = some b → b.height = (i : Int)
  hprev0 : ∀ b : Block H, s.chain[0]? = some b → b.previousBlockHash = none
  hlink : ∀ (i : Nat) (b c : Block H), s.chain[i]? = some b → s.chain[i + 1]? = some c →
    c.previousBlockHash = b.hash
  hhash : ∀ b ∈ s.chain, b.hash = some (digest { b with hash := none })

omit [DecidableEq H] in
theorem populate_height (digest : Block H → H) (now : Nat) (nh : Int) (b0 : Block H) :
    (populate digest now nh b0).height = nh := rfl

omit [DecidableEq H] in
theorem populate_time (digest : Block H → H) (now : Nat) (nh : Int) (b0 : Block H) :
    (populate digest now nh b0).time = now := rfl

omit [DecidableEq H] in
theorem populate_prev (digest : Block H → H) (now : Nat) (nh : Int) (b0 : Block H) :
    (populate digest now nh b0).previousBlockHash = b0.previousBlockHash := rfl

omit [DecidableEq H] in
theorem populate_body (digest : Block H → H) (now : Nat) (nh : Int) (b0 : Block H) :
    (populate digest now nh b0).body = b0.body := rfl

omit [DecidableEq H] in
theorem populate_hash (digest : Block H → H) (now : Nat) (nh : Int) (b0 : Block H)
    (h : b0.hash = none) :
    (populate digest now nh b0).hash =
      some (digest { populate digest now nh b0 with hash := none }) := by
  cases b0
  cases h
  rfl

theorem jsGet_eq_getElem? {α : Type} (l : List α) (i : Int) (h0 : 0 ≤ i) :
    jsGet l i = l[i.toNat]? := by
  unfold jsGet
  split
  · next h => simp [List.getElem?_eq_getElem h.2]
  · next h =>
    have hle : l.length ≤ i.toNat := by
      by_contra hlt
      exact h ⟨h0, Nat.lt_of_not_le hlt⟩
    simp [List.getElem?_eq_none hle]

theorem _addBlock_fst_empty (digest : Block H → H) (now : Nat) (s : Blockchain H)
    (block : Block H) (h : s.chain = []) :
    (_addBlock digest now s block).1 =
      { chain := [populate digest now (s.height + 1) block], height := s.height + 1 } := by
  simp [_addBlock, h]

theorem _addBlock_fst_last (digest : Block H → H) (now : Nat) (s : Blockchain H)
    (block lb : Block H) (hne : s.chain.length > 0) (hlb : jsGet s.chain s.height = some lb) :
    (_addBlock digest now s block).1 =
      { chain := s.chain ++
          [populate digest now (s.height + 1) { block with previousBlockHash := lb.hash }],
        height := s.height + 1 } := by
  simp [_addBlock, hne, hlb]

theorem _addBlock_snd_of_valid (digest : Block H → H) (now : Nat) (s : Blockchain H)
    (block lb : Block H) (hne : s.chain.length > 0) (hlb : jsGet s.chain s.height = some lb)
    (hval : validateChain digest (_addBlock digest now s block).1 = .ok []) :
    (_addBlock digest now s block).2 =
      .ok (populate digest now (s.height + 1) { block with previousBlockHash := lb.hash }) := by
  have h1 := _addBlock_fst_last digest now s block lb hne hlb
  rw [h1] at hval
  simp [_addBlock, hne, hlb, hval]

theorem chainInv_mkNew (digest : Block H → H) (now : Nat) :
    ChainInv digest (Blockchain.mkNew digest now) := by
  have hs : Blockchain.mkNew digest now =
      { chain := [populate digest now 0 (newBlock (BlockBody.genesis "Genesis Block"))],
        height := 0 } := by
    have h := _addBlock_fst_empty digest now
      ({ chain := [], height := -1 } : Blockchain H) (newBlock (.genesis "Genesis Block")) rfl
    simpa [Blockchain.mkNew, initializeChain] using h
  rw [hs]
  refine ⟨by simp, by simp, ?_, ?_, ?_, ?_⟩
  · intro i b hb
    match i with
    | 0 =>
      simp only [List.getElem?_cons_zero, Option.some.injEq] at hb
      subst hb; rfl
    | i + 1 => simp at hb
  · intro b hb
    simp only [List.getElem?_cons_zero, Option.some.injEq] at hb
    subst hb; rfl
  · intro i b c hb hc
    simp at hc
  · intro b hb
    simp only [List.mem_singleton] at hb
    subst hb
    exact populate_hash digest now 0 _ rfl

theorem chainInv_step (digest : Block H → H) (now : Nat) (body : BlockBody)
    (s : Blockchain H) (inv : ChainInv digest s) :
    ChainInv digest ((_addBlock digest now s (newBlock body)).1) := by
  have hlenpos : 0 < s.chain.length := List.length_pos.mpr inv.ne
  have hh0 : 0 ≤ s.height := by rw [inv.hlen]; omega
  have htn : s.height.toNat = s.chain.length - 1 := by rw [inv.hlen]; omega
  obtain ⟨lb, hlbi⟩ : ∃ lb, s.chain[s.chain.length - 1]? = some lb := by
    rw [List.getElem?_eq_getElem (show s.chain.length - 1 < s.chain.length by omega)]
    exact ⟨_, rfl⟩
  have hlb : jsGet s.chain s.height = some lb := by
    rw [jsGet_eq_getElem? _ _ hh0, htn]; exact hlbi
  have hfst := _addBlock_fst_last digest now s (newBlock body) lb hlenpos hlb
  rw [hfst]
  refine ⟨by simp, ?_, ?_, ?_, ?_, ?_⟩
  · simp only [List.length_append, List.length_singleton]
    rw [inv.hlen]; push_cast; ring
  · intro i b hb
    rcases Nat.lt_trichotomy i s.chain.length with hi | hi | hi
    · rw [List.getElem?_append_left hi] at hb
      exact inv.hheight i b hb
    · subst hi
      rw [List.getElem?_concat_length] at hb
      cases hb
      rw [populate_height, inv.hlen]
      omega
    · rw [List.getElem?_eq_none (by simp; omega)] at hb
      cases hb
  · intro b hb
    rw [List.getElem?_append_left hlenpos] at hb
    exact inv.hprev0 b hb
  · intro i b c hb hc
    rcases Nat.lt_trichotomy (i + 1) s.chain.length with hi | hi | hi
    · rw [List.getElem?_append_left hi] at hc
      rw [List.getElem?_append_left (by omega)] at hb
      exact inv.hlink i b c hb hc
    · rw [hi, List.getElem?_concat_length] at hc
      cases hc
      rw [List.getElem?_append_left (by omega)] at hb
      have hieq : i = s.chain.length - 1 := by omega
      rw [hieq] at hb
      rw [hb] at hlbi
      cases hlbi
      rw [populate_prev]
    · rw [List.getElem?_eq_none (by simp; omega)] at hc
      cases hc
  · intro b hb
    rcases List.mem_append.mp hb with hmem | hmem
    · exact inv.hhash b hmem
    · rw [List.mem_singleton] at hmem
      subst hmem
      exact populate_hash digest now _ _ rfl

theorem reachable_chainInv (digest : Block H → H) (s : Blockchain H)
    (h : Reachable digest s) : ChainInv digest s := by
  induction h with
  | genesis now => exact chainInv_mkNew digest now
  | step now body hs ih => exact chainInv_step digest now body _ ih

omit [DecidableEq H] in
theorem find?_eq_of_first {α : Type} (p : α → Bool) :
    ∀ (l : List α) (i : Nat) (a : α), l[i]? = some a → p a = true →
      (∀ (j : Nat) (b : α), j < i → l[j]? = some b → p b = false) →
      l.find? p = some a := by
  intro l
  induction l with
  | nil => intro i a h; simp at h
  | cons x xs ih =>
    intro i a h hp hbefore
    match i with
    | 0 =>
      simp only [List.getElem?_cons_zero, Option.some.injEq] at h
      subst h
      exact List.find?_cons_of_pos xs hp
    | i + 1 =>
      have hx : p x = false := hbefore 0 x (Nat.succ_pos i) (by simp)
      rw [List.find?_cons_of_neg xs (by simp [hx])]
      exact ih i a (by simpa using h) hp
        (fun j b hj hb => hbefore (j + 1) b (by omega) (by simpa using hb))

/-- Under the invariant and a collision-resistant digest (no two
records at different heights share a digest), `validateChain`'s
re-search for a record's `previousBlockHash` finds exactly the
predecessor record. -/
theorem inv_find_prev (digest : Block H → H) (s : Blockchain H) (inv : ChainInv digest s)
    (hinj : ∀ b1 b2 : Block H, digest b1 = digest b2 → b1.height = b2.height)
    (i : Nat) (b c : Block H) (hb : s.chain[i]? = some b) (hc : s.chain[i + 1]? = some c) :
    s.chain.find? (fun p => decide (p.hash = c.previousBlockHash)) = some b := by
  apply find?_eq_of_first _ s.chain i b hb
  · rw [inv.hlink i b c hb hc]
    simp
  · intro j d hj hd
    have hdm : d ∈ s.chain := List.getElem?_mem hd
    have hbm : b ∈ s.chain := List.getElem?_mem hb
    have hlink := inv.hlink i b c hb hc
    rw [hlink]
    simp only [decide_eq_false_iff_not]
    intro heq
    rw [inv.hhash d hdm, inv.hhash b hbm] at heq
    have hhd := hinj _ _ (Option.some.inj heq)
    have he1 : ({ d with hash := none } : Block H).height = d.height := rfl
    have he2 : ({ b with hash := none } : Block H).height = b.height := rfl
    rw [he1, he2, inv.hheight j d hd, inv.hheight i b hb] at hhd
    omega

/-- Scanning any suffix of an invariant-satisfying chain adds no
errors and never throws. -/
theorem validateScan_drop (digest : Block H → H) (s : Blockchain H) (inv : ChainInv digest s)
    (hinj : ∀ b1 b2 : Block H, digest b1 = digest b2 → b1.height = b2.height) :
    ∀ (rest : List (Block H)) (k : Nat), s.chain.drop k = rest →
      ∀ log : List ChainErr, validateScan digest s.chain rest log = .ok log := by
  intro rest
  induction rest with
  | nil => intro k hk log; rfl
  | cons b rest2 ih =>
    intro k hk log
    have hbk : s.chain[k]? = some b := by
      have h0 : (s.chain.drop k)[0]? = some b := by rw [hk]; simp
      rw [List.getElem?_drop] at h0
      simpa using h0
    have hmem : b ∈ s.chain := List.getElem?_mem hbk
    have hval : blockValidate digest b = true := by
      unfold blockValidate
      simp [inv.hhash b hmem]
    have hrest2 : s.chain.drop (k + 1) = rest2 := by
      rw [← List.tail_drop, hk]; rfl
    have hbh := inv.hheight k b hbk
    match k, hk, hbk, hbh, hrest2 with
    | 0, hk, hbk, hbh, hrest2 =>
      have hstep : validateScan digest s.chain (b :: rest2) log =
          validateScan digest s.chain rest2 log := by
        simp only [validateScan, hval, hbh]
        simp
      rw [hstep]
      exact ih 1 hrest2 log
    | k2 + 1, hk, hbk, hbh, hrest2 =>
      have hlt : k2 + 1 < s.chain.length := by
        rcases List.getElem?_eq_some_iff.mp hbk with ⟨h, _⟩
        exact h
      obtain ⟨bp, hbp⟩ : ∃ bp, s.chain[k2]? = some bp := by
        rw [List.getElem?_eq_getElem (by omega)]
        exact ⟨_, rfl⟩
      have hfind := inv_find_prev digest s inv hinj k2 bp b hbp hbk
      have hbph := inv.hheight k2 bp hbp
      have hnz : ¬ b.height = 0 := by rw [hbh]; push_cast; omega
      have harith : bp.height = b.height - 1 := by rw [hbph, hbh]; push_cast; ring
      have hstep : validateScan digest s.chain (b :: rest2) log =
          validateScan digest s.chain rest2 log := by
        simp only [validateScan, hval, hnz, hfind, harith]
        simp
      rw [hstep]
      exact ih (k2 + 2) hrest2 log

/-- An invariant-satisfying ledger validates cleanly. -/
theorem validateChain_of_inv (digest : Block H → H) (s : Blockchain H) (inv : ChainInv digest s)
    (hinj : ∀ b1 b2 : Block H, digest b1 = digest b2 → b1.height = b2.height) :
    validateChain digest s = .ok [] :=
  validateScan_drop digest s inv hinj s.chain 0 (by simp) []

theorem _addBlock_snd_empty (digest : Block H → H) (now : Nat) (s : Blockchain H)
    (block : Block H) (h : s.chain = []) :
    (_addBlock digest now s block).2 =
      (match validateChain digest (_addBlock digest now s block).1 with
       | .error e => .error e
       | .ok errs =>
         if errs.length > 0 then .error (.integrityErrors errs)
         else .ok (populate digest now (s.height + 1) block)) := by
  rw [_addBlock_fst_empty digest now s block h]
  simp [_addBlock, h]

theorem _addBlock_snd_last (digest : Block H → H) (now : Nat) (s : Blockchain H)
    (block lb : Block H) (hne : s.chain.length > 0) (hlb : jsGet s.chain s.height = some lb) :
    (_addBlock digest now s block).2 =
      (match validateChain digest (_addBlock digest now s block).1 with
       | .error e => .error e
       | .ok errs =>
         if errs.length > 0 then .error (.integrityErrors errs)
         else .ok (populate digest now (s.height + 1)
           { block with previousBlockHash := lb.hash })) := by
  rw [_addBlock_fst_last digest now s block lb hne hlb]
  simp [_addBlock, hne, hlb]

theorem demoChain2_reachable : Reachable heightDigest demoChain2 :=
  Reachable.step 200 (.starClaim "addr1" "m" "sig" "star1") (Reachable.genesis 100)

/-- C4: for every ledger produced solely through the defined append
path — the constructor's genesis append followed by zero or more
appended records — and any digest with no collisions across heights,
`validateChain()` resolves with an empty error list. -/
theorem append_path_validates_clean (digest : Block H → H) (s : Blockchain H)
    (hreach : Reachable digest s)
    (hinj : ∀ b1 b2 : Block H, digest b1 = digest b2 → b1.height = b2.height) :
    validateChain digest s = .ok [] :=
  validateChain_of_inv digest s (reachable_chainInv digest s hreach) hinj

/-- Witness for C4: the two-record append-path ledger validates
cleanly. -/
theorem append_path_validates_clean_witness :
    validateChain heightDigest demoChain2 = .ok [] :=
  append_path_validates_clean heightDigest demoChain2 demoChain2_reachable
    (fun _ _ h => h)

/-- C5: every ledger reachable through the append path satisfies the
linkage invariants — each record's height is its predecessor's height
plus one, each record's `previousBlockHash` is its predecessor's
stored hash, and the first record has height 0 and an absent
`previousBlockHash`. -/
theorem reachable_linkage_invariants (digest : Block H → H) (s : Blockchain H)
    (hreach : Reachable digest s) :
    (∀ (i : Nat) (b c : Block H), s.chain[i]? = some b → s.chain[i + 1]? = some c →
      c.height = b.height + 1 ∧ c.previousBlockHash = b.hash) ∧
    (∀ b : Block H, s.chain[0]? = some b → b.height = 0 ∧ b.previousBlockHash = none) := by
  have inv := reachable_chainInv digest s hreach
  constructor
  · intro i b c hb hc
    refine ⟨?_, inv.hlink i b c hb hc⟩
    rw [inv.hheight i b hb, inv.hheight (i + 1) c hc]
    push_cast
    ring
  · intro b hb
    exact ⟨inv.hheight 0 b hb, inv.hprev0 b hb⟩

/-- Witness for C5 on the concrete two-record ledger. -/
theorem reachable_linkage_invariants_witness :
    demoChain2.chain[0]? = some demoG ∧ demoChain2.chain[1]? = some demoB1 ∧
    demoG.height = 0 ∧ demoG.previousBlockHash = none ∧
    demoB1.height = demoG.height + 1 ∧ demoB1.previousBlockHash = demoG.hash := by
  have h := reachable_linkage_invariants heightDigest demoChain2 demoChain2_reachable
  have h0 : demoChain2.chain[0]? = some demoG := by decide
  have h1 : demoChain2.chain[1]? = some demoB1 := by decide
  have hbc := h.1 0 demoG demoB1 h0 h1
  have hb := h.2 demoG h0
  exact ⟨h0, h1, hb.1, hb.2, hbc.1, hbc.2⟩

omit [DecidableEq H] in
theorem jsGet_some_length_pos {α : Type} (l : List α) (i : Int) (a : α)
    (h : jsGet l i = some a) : 0 < l.length := by
  unfold jsGet at h
  split at h
  · next hc => omega
  · cases h

/-- C6: a record created by `_addBlock` from a fresh constructor block
stores as its hash the digest of its fully-populated content — final
height, timestamp, predecessor hash and payload — with the hash field
itself excluded (still null) in the digest input. -/
theorem appended_hash_over_populated_content (digest : Block H → H) (now : Nat)
    (s : Blockchain H) (body : BlockBody)
    (hready : s.chain = [] ∨ ∃ lb, jsGet s.chain s.height = some lb) :
    ∃ r : Block H, (_addBlock digest now s (newBlock body)).1.chain = s.chain ++ [r] ∧
      r.height = s.height + 1 ∧ r.time = now ∧ r.body = body ∧
      r.hash = some (digest { r with hash := none }) := by
  rcases hready with hemp | ⟨lb, hlb⟩
  · rw [_addBlock_fst_empty digest now s _ hemp]
    refine ⟨populate digest now (s.height + 1) (newBlock body), ?_, rfl, rfl, rfl, ?_⟩
    · rw [hemp]
      rfl
    · exact populate_hash digest now _ _ rfl
  · have hne : 0 < s.chain.length := jsGet_some_length_pos s.chain s.height lb hlb
    rw [_addBlock_fst_last digest now s _ lb hne hlb]
    exact ⟨populate digest now (s.height + 1) { newBlock body with previousBlockHash := lb.hash },
      rfl, rfl, rfl, rfl, populate_hash digest now _ _ rfl⟩

/-- Witness for C6 on the concrete genesis-only ledger. -/
theorem appended_hash_over_populated_content_witness :
    ∃ r : Block Int,
      (_addBlock heightDigest 200 (Blockchain.mkNew heightDigest 100)
        (newBlock (.starClaim "addr1" "m" "sig" "star1"))).1.chain =
        (Blockchain.mkNew heightDigest 100).chain ++ [r] ∧
      r.height = (Blockchain.mkNew heightDigest 100).height + 1 ∧ r.time = 200 ∧
      r.body = .starClaim "addr1" "m" "sig" "star1" ∧
      r.hash = some (heightDigest { r with hash := none }) :=
  appended_hash_over_populated_content heightDigest 200 (Blockchain.mkNew heightDigest 100)
    (.starClaim "addr1" "m" "sig" "star1") (Or.inr ⟨demoG, by decide⟩)

/-- C7: a submission whose embedded timestamp parses and lies more
than 300 seconds in the past settles as the staleness rejection no
matter what the signature verifier would say — the staleness check is
decided before the signature check and the first settlement wins. -/
theorem stale_submission_rejects_first (digest : Block H → H)
    (verify : String → String → String → Bool) (now : Nat)
    (address message signature star : String) (s : Blockchain H) (t : Int)
    (hp : jsParseInt (jsSplitColon message)[1]? = some t)
    (hstale : (now : Int) - t > 300) :
    (submitStar digest verify now address message signature star s).2 =
      .error .expiredRequest := by
  have hd : decide ((now : Int) - t > 300) = true := decide_eq_true hstale
  simp [submitStar, hp, hd]

/-- Witness for C7: a 900-second-old message with a verifier that
accepts everything is still rejected as expired. -/
theorem stale_submission_rejects_first_witness :
    (0 : Int) + 1000 - 100 > 300 ∧
    (submitStar heightDigest (fun _ _ _ => true) 1000 "addr1" "addr1:100:starRegistry"
      "sig" "star1" (Blockchain.mkNew heightDigest 100)).2 = .error .expiredRequest :=
  ⟨by norm_num,
   stale_submission_rejects_first heightDigest (fun _ _ _ => true) 1000 "addr1"
     "addr1:100:starRegistry" "sig" "star1" (Blockchain.mkNew heightDigest 100) 100
     (by decide) (by norm_num)⟩

/-- C8: `getBlockByHash` resolves with the first record whose stored
hash equals the queried value when one exists — the stray reject after
a successful resolve is a no-op — and rejects as not-found when no
record matches. -/
theorem getBlockByHash_first_or_notFound (s : Blockchain H) (h : H) :
    (∀ (i : Nat) (b : Block H), s.chain[i]? = some b → b.hash = some h →
      (∀ (j : Nat) (c : Block H), j < i → s.chain[j]? = some c → ¬ c.hash = some h) →
      getBlockByHash s h = .ok b) ∧
    ((∀ b ∈ s.chain, ¬ b.hash = some h) → getBlockByHash s h = .error .notFound) := by
  constructor
  · intro i b hb hbh hfirst
    unfold getBlockByHash
    rw [find?_eq_of_first (fun p => decide (p.hash = some h)) s.chain i b hb
      (by simp [hbh]) (fun j c hj hc => by simp [hfirst j c hj hc])]
  · intro hnone
    unfold getBlockByHash
    rw [List.find?_eq_none.mpr (fun x hx => by simp [hnone x hx])]

/-- Witness for C8: the hash of the submitted record is found, an
unused hash is not. -/
theorem getBlockByHash_witness :
    getBlockByHash demoChain2 1 = .ok demoB1 ∧
    getBlockByHash demoChain2 99 = .error .notFound := by
  constructor
  · exact (getBlockByHash_first_or_notFound demoChain2 1).1 1 demoB1 (by decide) (by decide)
      (fun j c hj hc => by
        have hj0 : j = 0 := by omega
        subst hj0
        have hg : demoChain2.chain[0]? = some demoG := by decide
        rw [hg] at hc
        cases hc
        decide)
  · exact (getBlockByHash_first_or_notFound demoChain2 99).2 (by decide)

omit [DecidableEq H] in
/-- C9: the address query returns exactly the `{owner, star}` pairs of
the records whose decoded payload carries the queried address —
records without an address field (the genesis) are skipped, never
failing the query — and the empty list when no record matches. -/
theorem stars_by_address_exact (s : Blockchain H) (address : String) :
    getStarsByWalletAddress s address = starsByAddressSpec s address ∧
    ((∀ b ∈ s.chain, bodyAddress b.body ≠ some address) →
      getStarsByWalletAddress s address = []) := by
  have key : ∀ (l : List (Block H)) (acc : List (String × String)),
      l.foldl
        (fun stars b =>
          match getBData b with
          | some (a, _, _, st) => if a = address then stars ++ [(address, st)] else stars
          | none => stars) acc =
      acc ++ l.filterMap
        (fun b =>
          match b.body with
          | .starClaim a _ _ st => if a = address then some (address, st) else none
          | .genesis _ => none) := by
    intro l
    induction l with
    | nil => intro acc; simp
    | cons b l2 ih =>
      intro acc
      simp only [getBData] at ih ⊢
      cases hbody : b.body with
      | genesis d => simp [hbody, ih]
      | starClaim a m sg st =>
        by_cases ha : a = address
        · simp [hbody, ha, ih]
        · simp [hbody, ha, ih]
  constructor
  · have h := key s.chain []
    simpa [getStarsByWalletAddress, starsByAddressSpec] using h
  · intro hnone
    have h := key s.chain []
    have hnil : s.chain.filterMap
        (fun b =>
          match b.body with
          | .starClaim a _ _ st => if a = address then some (address, st) else none
          | .genesis _ => none) = [] := by
      rw [List.filterMap_eq_nil_iff]
      intro b hb
      cases hbody : b.body with
      | genesis d => rfl
      | starClaim a m sg st =>
        have hba := hnone b hb
        rw [hbody] at hba
        simp only [bodyAddress, ne_eq, Option.some.injEq] at hba
        simp [hba]
    simp only [getStarsByWalletAddress]
    rw [h, hnil]
    rfl

/-- Witness for C9: the owner query finds the one submitted star and
an unknown owner gets the empty list. -/
theorem stars_by_address_exact_witness :
    getStarsByWalletAddress demoChain2 "addr1" = [("addr1", "star1")] ∧
    getStarsByWalletAddress demoChain2 "nobody" = [] := by
  constructor
  · rw [(stars_by_address_exact demoChain2 "addr1").1]
    decide
  · exact (stars_by_address_exact demoChain2 "nobody").2 (by decide)

/-- C10: when the message's second colon-delimited field does not
parse as an integer, the staleness comparison is against NaN and never
triggers: with a verifying signature, `submitStar` appends a record
and resolves with it, however old or malformed the message is. -/
theorem nan_timestamp_never_stale (digest : Block H → H)
    (verify : String → String → String → Bool) (now : Nat)
    (address message signature star : String) (s : Blockchain H)
    (hreach : Reachable digest s)
    (hinj : ∀ b1 b2 : Block H, digest b1 = digest b2 → b1.height = b2.height)
    (hparse : jsParseInt (jsSplitColon message)[1]? = none)
    (hsig : verify message address signature = true) :
    ∃ r : Block H, submitStar digest verify now address message signature star s =
      ({ chain := s.chain ++ [r], height := s.height + 1 }, .ok r) := by
  have inv := reachable_chainInv digest s hreach
  have hlenpos : 0 < s.chain.length := List.length_pos.mpr inv.ne
  have hh0 : 0 ≤ s.height := by rw [inv.hlen]; omega
  have htn : s.height.toNat = s.chain.length - 1 := by rw [inv.hlen]; omega
  obtain ⟨lb, hlbi⟩ : ∃ lb, s.chain[s.chain.length - 1]? = some lb := by
    rw [List.getElem?_eq_getElem (show s.chain.length - 1 < s.chain.length by omega)]
    exact ⟨_, rfl⟩
  have hlb : jsGet s.chain s.height = some lb := by
    rw [jsGet_eq_getElem? _ _ hh0, htn]
    exact hlbi
  have hreach2 : Reachable digest
      ((_addBlock digest now s (newBlock (.starClaim address message signature star))).1) :=
    Reachable.step now (.starClaim address message signature star) hreach
  have hval := validateChain_of_inv digest _ (reachable_chainInv digest _ hreach2) hinj
  have hfst := _addBlock_fst_last digest now s
    (newBlock (.starClaim address message signature star)) lb hlenpos hlb
  have hsnd := _addBlock_snd_of_valid digest now s
    (newBlock (.starClaim address message signature star)) lb hlenpos hlb hval
  refine ⟨populate digest now (s.height + 1)
    { newBlock (.starClaim address message signature star) with
        previousBlockHash := lb.hash }, ?_⟩
  have hmain : submitStar digest verify now address message signature star s =
      _addBlock digest now s (newBlock (.starClaim address message signature star)) := by
    simp [submitStar, hparse, hsig]
  rw [hmain, Prod.ext_iff]
  exact ⟨by rw [hfst], by rw [hsnd]⟩

/-- Witness for C10: a message with no colon at all (so no parseable
timestamp) sails past the staleness check and is appended. -/
theorem nan_timestamp_never_stale_witness :
    ∃ r : Block Int,
      submitStar heightDigest (fun _ _ _ => true) 1000 "addr1" "oldmessage" "sig" "star1"
        (Blockchain.mkNew heightDigest 100) =
      ({ chain := (Blockchain.mkNew heightDigest 100).chain ++ [r],
         height := (Blockchain.mkNew heightDigest 100).height + 1 }, .ok r) :=
  nan_timestamp_never_stale heightDigest (fun _ _ _ => true) 1000 "addr1" "oldmessage"
    "sig" "star1" (Blockchain.mkNew heightDigest 100) (Reachable.genesis 100)
    (fun _ _ h => h) (by decide) rfl

/-- C1 (code evaluation): a stale, validly-signed submission settles
as the staleness rejection yet still appends a record — the reject is
not followed by a return, so execution continues to `_addBlock` — and
a fresh but invalidly-signed submission settles as the signature
rejection yet also still appends: failed checks do not leave the
ledger unchanged. -/
theorem failed_checks_still_append :
    (Blockchain.mkNew heightDigest 100).chain.length = 1 ∧
    (submitStar heightDigest (fun _ _ _ => true) 1000 "addr1" "addr1:100:starRegistry" "sig"
      "star1" (Blockchain.mkNew heightDigest 100)).2 = .error .expiredRequest ∧
    (submitStar heightDigest (fun _ _ _ => true) 1000 "addr1" "addr1:100:starRegistry" "sig"
      "star1" (Blockchain.mkNew heightDigest 100)).1.chain.length = 2 ∧
    (submitStar heightDigest (fun _ _ _ => true) 1000 "addr1" "addr1:100:starRegistry" "sig"
      "star1" (Blockchain.mkNew heightDigest 100)).1.height = 1 ∧
    (submitStar heightDigest (fun _ _ _ => false) 300 "addr1" "addr1:100:starRegistry" "sig"
      "star1" (Blockchain.mkNew heightDigest 100)).2 = .error .invalidSignature ∧
    (submitStar heightDigest (fun _ _ _ => false) 300 "addr1" "addr1:100:starRegistry" "sig"
      "star1" (Blockchain.mkNew heightDigest 100)).1.chain.length = 2 := by
  decide

/-- C2 (code evaluation): the untampered append-path ledger validates
cleanly, but once the submitted record's payload is modified with its
stored hash left as committed, `validateChain` rejects with the
`ReferenceError` raised by the unbound identifier in the
hash-mismatch error message — it does not resolve with an error
list. -/
theorem tampered_payload_validation_throws :
    validateChain demoDigest demoDigestChain2 = .ok [] ∧
    tamperedChain.chain.length = 2 ∧
    validateChain demoDigest tamperedChain = .error .referenceError := by
  decide

/-- C3 (counterexample): appending to `brokenState` commits the new
record and the post-append validation resolves with a non-empty error
list, but `_addBlock` settles as a rejection carrying that list — it
does not return the appended record. -/
theorem nonempty_validation_rejects_append_cex :
    validateChain demoDigest
      (_addBlock demoDigest 300 brokenState (newBlock (.starClaim "a" "m" "sg" "st"))).1 =
      .ok [.linkageBroken 1] ∧
    (_addBlock demoDigest 300 brokenState
      (newBlock (.starClaim "a" "m" "sg" "st"))).1.chain.length = 3 ∧
    (_addBlock demoDigest 300 brokenState (newBlock (.starClaim "a" "m" "sg" "st"))).2 =
      .error (.integrityErrors [.linkageBroken 1]) := by
  decide

/-- C3 (amended): an `_addBlock` call whose last-record lookup does
not throw always commits the record to the ledger, but it returns the
record exactly when the post-append validation resolves with an empty
list; a non-empty resolved list is rejected as integrity errors
instead. -/
theorem append_committed_settlement_follows_validation (digest : Block H → H) (now : Nat)
    (s : Blockchain H) (block : Block H)
    (hready : s.chain = [] ∨ ∃ lb, jsGet s.chain s.height = some lb) :
    ∃ r : Block H, (_addBlock digest now s block).1.chain = s.chain ++ [r] ∧
      ((_addBlock digest now s block).2 = .ok r ↔
        validateChain digest (_addBlock digest now s block).1 = .ok []) ∧
      (∀ errs : List ChainErr,
        validateChain digest (_addBlock digest now s block).1 = .ok errs → errs ≠ [] →
        (_addBlock digest now s block).2 = .error (.integrityErrors errs)) := by
  rcases hready with hemp | ⟨lb, hlb⟩
  · refine ⟨populate digest now (s.height + 1) block, ?_, ?_, ?_⟩
    · rw [_addBlock_fst_empty digest now s block hemp, hemp]
      rfl
    · rw [_addBlock_snd_empty digest now s block hemp]
      cases hv : validateChain digest (_addBlock digest now s block).1 with
      | error e => simp
      | ok errs =>
        cases errs with
        | nil => simp
        | cons e rest => simp
    · intro errs hv hne
      rw [_addBlock_snd_empty digest now s block hemp, hv]
      have hpos : errs.length > 0 := by
        cases errs with
        | nil => exact absurd rfl hne
        | cons e rest => simp
      simp [hpos]
  · have hne : 0 < s.chain.length := jsGet_some_length_pos s.chain s.height lb hlb
    refine ⟨populate digest now (s.height + 1) { block with previousBlockHash := lb.hash },
      ?_, ?_, ?_⟩
    · rw [_addBlock_fst_last digest now s block lb hne hlb]
    · rw [_addBlock_snd_last digest now s block lb hne hlb]
      cases hv : validateChain digest (_addBlock digest now s block).1 with
      | error e => simp
      | ok errs =>
        cases errs with
        | nil => simp
        | cons e rest => simp
    · intro errs hv hnemp
      rw [_addBlock_snd_last digest now s block lb hne hlb, hv]
      have hpos : errs.length > 0 := by
        cases errs with
        | nil => exact absurd rfl hnemp
        | cons e rest => simp
      simp [hpos]

/-- Witness for the amended C3 on the genesis-only ledger, where the
post-append validation does resolve empty and the record is
returned. -/
theorem append_committed_settlement_follows_validation_witness :
    ∃ r : Block Int,
      (_addBlock heightDigest 200 (Blockchain.mkNew heightDigest 100)
        (newBlock (.starClaim "addr1" "m" "sig" "star1"))).1.chain =
        (Blockchain.mkNew heightDigest 100).chain ++ [r] ∧
      ((_addBlock heightDigest 200 (Blockchain.mkNew heightDigest 100)
          (newBlock (.starClaim "addr1" "m" "sig" "star1"))).2 = .ok r ↔
        validateChain heightDigest
          (_addBlock heightDigest 200 (Blockchain.mkNew heightDigest 100)
            (newBlock (.starClaim "addr1" "m" "sig" "star1"))).1 = .ok []) ∧
      (∀ errs : List ChainErr,
        validateChain heightDigest
          (_addBlock heightDigest 200 (Blockchain.mkNew heightDigest 100)
            (newBlock (.starClaim "addr1" "m" "sig" "star1"))).1 = .ok errs → errs ≠ [] →
        (_addBlock heightDigest 200 (Blockchain.mkNew heightDigest 100)
          (newBlock (.starClaim "addr1" "m" "sig" "star1"))).2 =
          .error (.integrityErrors errs)) :=
  append_committed_settlement_follows_validation heightDigest 200
    (Blockchain.mkNew heightDigest 100) (newBlock (.starClaim "addr1" "m" "sig" "star1"))
    (Or.inr ⟨demoG, by decide⟩)

end StarLedger

